import Mathlib

/-!
Verification of the qn902x-tools protocol core.

Shallow embedding of the QN902x serial bootloader client
(`qntool.py`, `nvdstool.py`, `nvdsparser.py`).  Byte strings are
modelled as `List Nat` (each element a byte value), Python 2 integers
as `Nat`/`Int`, and the serial transport as a finite list of the bytes
it will deliver: `read n` returns up to `n` bytes (`List.take`),
modelling a read that returns fewer bytes on timeout.
-/

/-- `struct.pack('<H', n)`: 16-bit little-endian.  Python raises
`struct.error` for `n > 0xFFFF`; all call sites below keep `n` in range. -/
def packH (n : Nat) : List Nat := [n % 256, n / 256 % 256]

/-- `struct.pack('<L', n)`: 32-bit little-endian. -/
def packL (n : Nat) : List Nat :=
  [n % 256, n / 256 % 256, n / 65536 % 256, n / 16777216 % 256]

/-- `struct.pack('<b', c)`: the two's-complement byte of a signed value
(Python raises `struct.error` outside `[-128, 127]`). -/
def byteOfSigned (c : Int) : Nat := (c % 256).toNat

/-- `struct.unpack('<b', b)`: signed interpretation of one byte. -/
def toSigned (b : Nat) : Int := if b < 128 then (b : Int) else (b : Int) - 256

/-- `struct.pack('<bHx', c, n)`: signed byte, 16-bit LE, one 0x00 pad byte. -/
def pack_bHx (c : Int) (n : Nat) : List Nat := byteOfSigned c :: packH n ++ [0]

/-- `struct.unpack('<bHx', l)`: requires exactly 4 bytes (`struct.error`,
i.e. `none`, otherwise). -/
def unpack_bHx : List Nat → Option (Int × Nat)
  | [b0, b1, b2, _] => some (toSigned b0, b1 + 256 * b2)
  | _ => none

/-- `struct.unpack('<cbHx', l)` (nvdstool header): raw byte, signed byte,
16-bit LE, pad; requires exactly 5 bytes. -/
def unpack_cbHx : List Nat → Option (Nat × Int × Nat)
  | [c0, b1, b2, b3, _] => some (c0, toSigned b1, b2 + 256 * b3)
  | _ => none

/-- `struct.unpack('<BBH', l)` (NVDS entry header): two unsigned bytes and a
16-bit LE size; requires exactly 4 bytes. -/
def unpack_BBH : List Nat → Option (Nat × Nat × Nat)
  | [b0, b1, b2, b3] => some (b0, b1, b2 + 256 * b3)
  | _ => none

/-- One shift-and-conditional-xor round of the CRC bit loop. -/
def crcRound (crc : Nat) : Nat :=
  if crc &&& 0x8000 ≠ 0 then ((crc <<< 1) ^^^ 0x1021) &&& 0xFFFF
  else (crc <<< 1) &&& 0xFFFF

/-- Feed one byte into the CRC state. -/
def crc16Update (crc b : Nat) : Nat := crcRound^[8] (crc ^^^ (b <<< 8))

/-- Modelled from the spec: the external `crc16.crc16xmodem` dependency —
CRC-16/XMODEM, polynomial 0x1021, initial value 0x0000, no input or output
reflection (spec §4.1 and glossary). -/
def crc16xmodem (msg : List Nat) : Nat := msg.foldl crc16Update 0

/-- `QNClient.build_packet` (identical in `qntool.py` and `nvdstool.py`):
`'\x71' + struct.pack('<bHx', cmd, len(data)) + data + struct.pack('<H', crc16xmodem(msg))`. -/
def build_packet (cmd : Int) (data : List Nat) : List Nat :=
  let msg := pack_bHx cmd data.length ++ data
  0x71 :: (msg ++ packH (crc16xmodem msg))

/-- `QNClient.calc_div` (`qntool.py`): Python 2 `/` on ints is floor
division, matching `Nat` division. -/
def calc_div (clock baudrate : Nat) : Nat :=
  let tmp := 16 * baudrate
  let inter_div := clock / tmp
  let frac_div := ((clock - inter_div * tmp) * 64 + tmp / 2) / tmp
  (inter_div <<< 8) + frac_div

/-- The spec side of the divisor computation, written from spec §4.3 and the
§3 register layout `(integerDivisor << 8) | fractionalDivisor`, for
comparison with `calc_div`. -/
def specDivisorRegister (clockHz baudRate : Nat) : Nat :=
  let scaled := 16 * baudRate
  let integerDivisor := clockHz / scaled
  let fractionalDivisor :=
    ((clockHz - integerDivisor * scaled) * 64 + scaled / 2) / scaled
  (integerDivisor <<< 8) ||| fractionalDivisor

/-- The constant clock-register payload hard-coded in the `nvdstool.py`
handshake: `'\x2c\x08\x00\x00'`. -/
def nvdstoolClockPayload : List Nat := [0x2C, 0x08, 0x00, 0x00]

/-- Errors raised by `qntool.py`'s `QNClient.read_packet`. -/
inductive RPErr where
  | badSync (got : List Nat)
  | noStartByte
  | unpackErr
  | badStartByte (b : Nat)
  | badChecksum
deriving DecidableEq

/-- Values returned by `qntool.py`'s `QNClient.read_packet`: `None` for a
confirm-only read, `ord(startbyte)` for a single-byte result, or the data
bytes of a full frame.  The source also parses the frame's command byte
(`cmd, data_len = struct.unpack('<bHx', header)`) though it returns only
the data; the parsed command is recorded in `dataResp` so that properties
about it can be stated. -/
inductive RPOut where
  | confirmed
  | byteResult (b : Nat)
  | dataResp (cmd : Int) (data : List Nat)
deriving DecidableEq

/-- `QNClient.read_packet` of `qntool.py`.  The pair's second component is
the unread remainder of the transport stream, so that the number of bytes
consumed is `input.length - remainder.length`. -/
def read_packet (onlyConfirm : Bool) (s : List Nat) :
    Except RPErr RPOut × List Nat :=
  match s with
  | [] => (.error (.badSync []), [])
  | sync :: s1 =>
    if sync ≠ 1 then (.error (.badSync [sync]), s1)
    else if onlyConfirm then (.ok .confirmed, s1)
    else
      match s1 with
      | [] => (.error .noStartByte, [])
      | sb :: s2 =>
        if sb = 3 ∨ sb = 4 then (.ok (.byteResult sb), s2)
        else
          let header := s2.take 4
          let s3 := s2.drop 4
          match unpack_bHx header with
          | none => (.error .unpackErr, s3)
          | some (cmd, dataLen) =>
            if sb ≠ 0x71 then (.error (.badStartByte sb), s3)
            else
              let data := s3.take dataLen
              let s4 := s3.drop dataLen
              let crc := crc16xmodem (header ++ data)
              if s4.take 2 ≠ packH crc then (.error .badChecksum, s4.drop 2)
              else (.ok (.dataResp cmd data), s4.drop 2)

/-- Errors raised by `nvdstool.py`'s `QNClient.read_packet`. -/
inductive NvErr where
  | badSync (got : List Nat)
  | unpackErr
  | badStartByte (b : Nat)
  | badChecksum
deriving DecidableEq

/-- `QNClient.read_packet` of `nvdstool.py`: reads a 5-byte header after the
sync byte, returns `None` (`Except.ok none`) when that read yields zero
bytes, and computes the CRC over `header[1:] + data`. -/
def nv_read_packet (s : List Nat) : Except NvErr (Option (List Nat)) × List Nat :=
  match s with
  | [] => (.error (.badSync []), [])
  | sync :: s1 =>
    if sync ≠ 1 then (.error (.badSync [sync]), s1)
    else
      let header := s1.take 5
      let s2 := s1.drop 5
      if header = [] then (.ok none, s2)
      else
        match unpack_cbHx header with
        | none => (.error .unpackErr, s2)
        | some (startbyte, _cmd, dataLen) =>
          if startbyte ≠ 0x71 then (.error (.badStartByte startbyte), s2)
          else
            let data := s2.take dataLen
            let s3 := s2.drop dataLen
            let crc := crc16xmodem (header.drop 1 ++ data)
            if s3.take 2 ≠ packH crc then (.error .badChecksum, s3.drop 2)
            else (.ok (some data), s3.drop 2)

/-- Outcome of the handshake's low-baud sync loop. -/
inductive SyncResult where
  | connected
  | unexpected (b : Nat)
  | timedOut
  | pending
deriving DecidableEq

/-- The `while True` sync loop of `QNClient.connect` (identical in
`qntool.py` and `nvdstool.py`).  Each trace element is one iteration: the
result of the 1-byte read following the `'\x33'` write (`none` models an
empty, timed-out read) paired with the value `time.time()` would return at
the subsequent deadline check.  The second component counts the `'\x33'`
writes performed; `pending` means the trace ended with the loop still
running. -/
def connectLoop (timeout start : ℚ) : List (Option Nat × ℚ) → SyncResult × Nat
  | [] => (.pending, 0)
  | (resp, now) :: rest =>
    match resp with
    | some b => if b = 1 then (.connected, 1) else (.unexpected b, 1)
    | none =>
      if 0 < timeout ∧ timeout < now - start then (.timedOut, 1)
      else
        let r := connectLoop timeout start rest
        (r.1, r.2 + 1)

/-- The 4-byte ASCII signature `'NVDS'`. -/
def nvdsSig : List Nat := [0x4E, 0x56, 0x44, 0x53]

/-- Errors raised by `NVDSParser.loads`. -/
inductive NvdsErr where
  | badSig
  | unpackErr
  | badTypeMarker (b : Nat)
deriving DecidableEq

/-- Python dict assignment `values[key] = value` on an association list:
overwrite in place when the key exists, append otherwise. -/
def insertAL (l : List (Nat × List Nat)) (k : Nat) (v : List Nat) :
    List (Nat × List Nat) :=
  match l with
  | [] => [(k, v)]
  | (k', v') :: t => if k' = k then (k, v) :: t else (k', v') :: insertAL t k v

/-- The `while True` entry loop of `NVDSParser.loads`.  The loop consumes at
least 4 bytes per iteration, so `fuel = data.length` (as supplied by
`loads`) never runs out before the data does; when it reaches 0 the data is
empty and the 4-byte header unpack fails exactly as in the source. -/
def parseEntriesF : Nat → List Nat → List (Nat × List Nat) →
    Except NvdsErr (List (Nat × List Nat))
  | 0, _, _ => .error .unpackErr
  | fuel + 1, data, values =>
    match unpack_BBH (data.take 4) with
    | none => .error .unpackErr
    | some (key, unk1, size) =>
      if key = 255 ∧ unk1 = 255 then .ok values
      else if unk1 ≠ 6 then .error (.badTypeMarker unk1)
      else
        let rest := data.drop 4
        let value := rest.take size
        let rest2 := rest.drop size
        let rest3 := if size % 4 ≠ 0 then rest2.drop (4 - size % 4) else rest2
        parseEntriesF fuel rest3 (insertAL values key value)

/-- `NVDSParser.loads`: check the signature, then run the entry loop. -/
def loads (data : List Nat) : Except NvdsErr (List (Nat × List Nat)) :=
  if data.take 4 = nvdsSig then parseEntriesF (data.drop 4).length (data.drop 4) []
  else .error .badSig

/-- One entry as written by `NVDSParser.dumps`:
`struct.pack('<BBH', key, 6, len(value)) + value` plus 0xFF padding when the
size is not a multiple of 4. -/
def dumpEntry (kv : Nat × List Nat) : List Nat :=
  kv.1 :: 6 :: packH kv.2.length ++ kv.2 ++
    (if kv.2.length % 4 ≠ 0 then List.replicate (4 - kv.2.length % 4) 255 else [])

/-- The entry section of `NVDSParser.dumps`: the `for key, value in
values.items()` loop, with the dict's iteration order modelled by the
association list's order. -/
def encodeEntries : List (Nat × List Nat) → List Nat
  | [] => []
  | kv :: t => dumpEntry kv ++ encodeEntries t

/-- Signature plus entries, before the final padding. -/
def dumpsContent (values : List (Nat × List Nat)) : List Nat :=
  nvdsSig ++ encodeEntries values

/-- `NVDSParser.dumps`: `data += '\xff' * (4096 - len(data))`.  In Python a
negative repeat count yields the empty string, matching truncated `Nat`
subtraction. -/
def dumps (values : List (Nat × List Nat)) : List Nat :=
  dumpsContent values ++ List.replicate (4096 - (dumpsContent values).length) 255

/-- `NVDSParser.fields`: the key registry.  The source maps each key to the
1-tuple `('label',)`; only the label is stored here and the tuple structure
reappears in `describe`. -/
def fields : List (Int × String) :=
  [(1, "Device address"), (2, "Device name"), (3, "Clock drift"),
   (4, "External wake-up time"), (5, "Oscillator wake-up time"),
   (6, "Radio wake-up time"), (7, "Sleep mode enable"),
   (8, "Factory_Setting_2"), (9, "Factory_Setting_3"),
   (10, "Factory_Setting_4"), (11, "TK Type"), (12, "TK"), (13, "IRK"),
   (14, "CSRK"), (15, "LTK"), (16, "XCSEL"), (17, "Temperature offset"),
   (18, "ADC scale"), (19, "ADC VCM")]

/-- `NVDSParser.describe`: `return self.fields.get(key, ('Unknown',))[0],` —
the trailing comma makes the return value the 1-tuple `(label,)`, modelled
as a one-element list. -/
def describe (key : Int) : List String :=
  [(fields.lookup key).getD "Unknown"]

/-! ## Helper lemmas -/

theorem or_add_pow : ∀ (n a b : Nat), b < 2 ^ n → a * 2 ^ n ||| b = a * 2 ^ n + b := by
  intro n
  induction n with
  | zero =>
    intro a b hb
    interval_cases b
    simp
  | succ n ih =>
    intro a b hb
    have hb2 : b.div2 < 2 ^ n := by
      rw [Nat.div2_val, Nat.div_lt_iff_lt_mul (by norm_num)]
      calc b < 2 ^ (n + 1) := hb
        _ = 2 ^ n * 2 := by ring
    have h1 : a * 2 ^ (n + 1) = Nat.bit false (a * 2 ^ n) := by
      simp [Nat.bit_val]
      ring
    conv_lhs => rw [h1, ← Nat.bit_decomp b]
    rw [Nat.lor_bit]
    have hd := Nat.bodd_add_div2 b
    simp only [Bool.false_or, Nat.bit_val, ih a b.div2 hb2]
    have h2 : a * 2 ^ (n + 1) = 2 * (a * 2 ^ n) := by ring
    omega

theorem crcRound_lt (x : Nat) : crcRound x < 65536 := by
  unfold crcRound
  split
  · exact Nat.lt_succ_of_le (Nat.and_le_right)
  · exact Nat.lt_succ_of_le (Nat.and_le_right)

theorem crc16Update_lt (crc b : Nat) : crc16Update crc b < 65536 := by
  unfold crc16Update
  rw [show (8 : Nat) = Nat.succ 7 from rfl, Function.iterate_succ_apply']
  exact crcRound_lt _

theorem foldl_crc16Update_lt (l : List Nat) :
    ∀ a, a < 65536 → l.foldl crc16Update a < 65536 := by
  induction l with
  | nil => intro a ha; simpa using ha
  | cons b t ih =>
    intro a _
    simpa using ih (crc16Update a b) (crc16Update_lt a b)

theorem crc16xmodem_lt (l : List Nat) : crc16xmodem l < 65536 :=
  foldl_crc16Update_lt l 0 (by norm_num)

theorem toSigned_byteOfSigned {c : Int} (h1 : -128 ≤ c) (h2 : c ≤ 127) :
    toSigned (byteOfSigned c) = c := by
  unfold toSigned byteOfSigned
  have hmod : c % 256 = if 0 ≤ c then c else c + 256 := by
    split
    · exact Int.emod_eq_of_lt (by omega) (by omega)
    · omega
  rcases le_or_lt 0 c with hc | hc
  · rw [if_pos hc] at hmod
    rw [hmod]
    rw [if_pos (by omega)]
    omega
  · rw [if_neg (by omega)] at hmod
    rw [hmod]
    rw [if_neg (by omega)]
    omega

theorem packH_unpack {n : Nat} (h : n ≤ 65535) :
    n % 256 + 256 * (n / 256 % 256) = n := by
  have hd : n / 256 < 256 := by omega
  rw [Nat.mod_eq_of_lt hd, Nat.mod_add_div]

/-! ## C7: baud divisor computation -/

/-- C7: `calc_div` is exact integer arithmetic agreeing with the spec's
divisor formula and register layout for every positive baud rate, and the
regression input `clockHz = 16000000`, `baudRate = 115200` yields
`integerDivisor = 8`, `fractionalDivisor = 44`, register value `0x082C`,
whose 4-byte little-endian packing is the constant payload
`'\x2c\x08\x00\x00'` hard-coded in the nvdstool handshake. -/
theorem calc_div_spec :
    (∀ clock baudrate : Nat, 0 < baudrate →
      calc_div clock baudrate = specDivisorRegister clock baudrate) ∧
    16000000 / (16 * 115200) = 8 ∧
    ((16000000 - 8 * (16 * 115200)) * 64 + (16 * 115200) / 2) / (16 * 115200) = 44 ∧
    calc_div 16000000 115200 = 0x082C ∧
    packL (calc_div 16000000 115200) = nvdstoolClockPayload := by
  refine ⟨?_, by norm_num, by norm_num, by decide, by decide⟩
  intro clock baudrate hb
  have htmp : 0 < 16 * baudrate := by omega
  have hr : clock - clock / (16 * baudrate) * (16 * baudrate) =
      clock % (16 * baudrate) := by
    have h1 := Nat.mod_add_div clock (16 * baudrate)
    have h2 : 16 * baudrate * (clock / (16 * baudrate)) =
        clock / (16 * baudrate) * (16 * baudrate) := Nat.mul_comm _ _
    omega
  have hrlt : clock % (16 * baudrate) < 16 * baudrate := Nat.mod_lt clock htmp
  have hfrac : ((clock - clock / (16 * baudrate) * (16 * baudrate)) * 64 +
      16 * baudrate / 2) / (16 * baudrate) < 256 := by
    rw [hr, Nat.div_lt_iff_lt_mul htmp]
    omega
  simp only [calc_div, specDivisorRegister]
  rw [Nat.shiftLeft_eq]
  exact (or_add_pow 8 (clock / (16 * baudrate)) _
    (by norm_num at hfrac ⊢; exact hfrac)).symm

/-- C7 witness. -/
theorem calc_div_spec_witness :
    0 < 115200 ∧ calc_div 16000000 115200 = specDivisorRegister 16000000 115200 :=
  ⟨by norm_num, calc_div_spec.1 16000000 115200 (by norm_num)⟩

/-! ## C8: handshake low-baud sync loop -/

/-- C8: in the sync loop, a non-empty read of a byte other than 0x01 fails
immediately with the unexpected-response error; reading 0x01 advances
(connects); an empty read with a positive timeout already exceeded fails
with the timeout error; an empty read otherwise retries (one more 0x33
write, then the loop continues on the rest of the trace); and a timeout of
0 or negative never produces a timeout failure. -/
theorem connect_sync_loop :
    (∀ (timeout start : ℚ) (b : Nat) (now : ℚ) rest, b ≠ 1 →
      connectLoop timeout start ((some b, now) :: rest) = (.unexpected b, 1)) ∧
    (∀ (timeout start now : ℚ) rest,
      connectLoop timeout start ((some 1, now) :: rest) = (.connected, 1)) ∧
    (∀ (timeout start now : ℚ) rest, 0 < timeout → timeout < now - start →
      connectLoop timeout start ((none, now) :: rest) = (.timedOut, 1)) ∧
    (∀ (timeout start now : ℚ) rest, ¬(0 < timeout ∧ timeout < now - start) →
      connectLoop timeout start ((none, now) :: rest) =
        ((connectLoop timeout start rest).1, (connectLoop timeout start rest).2 + 1)) ∧
    (∀ (timeout start : ℚ) trace, timeout ≤ 0 →
      (connectLoop timeout start trace).1 ≠ .timedOut) := by
  refine ⟨?_, ?_, ?_, ?_, ?_⟩
  · intro timeout start b now rest hb
    simp [connectLoop, hb]
  · intro timeout start now rest
    simp [connectLoop]
  · intro timeout start now rest h1 h2
    simp [connectLoop, h1, h2]
  · intro timeout start now rest h
    simp [connectLoop, h]
  · intro timeout start trace ht
    induction trace with
    | nil => simp [connectLoop]
    | cons p rest ih =>
      obtain ⟨resp, now⟩ := p
      match resp with
      | some b =>
        by_cases hb : b = 1 <;> simp [connectLoop, hb]
      | none =>
        have hcond : ¬(0 < timeout ∧ timeout < now - start) := by
          rintro ⟨h1, _⟩
          exact absurd ht (not_le.mpr h1)
        simpa [connectLoop, hcond] using ih

/-- C8 witness. -/
theorem connect_sync_loop_witness :
    ((5 : Nat) ≠ 1 ∧ connectLoop 10 0 [(some 5, 3)] = (.unexpected 5, 1)) ∧
    connectLoop 10 0 [(some 1, 3)] = (.connected, 1) ∧
    ((0 : ℚ) < 10 ∧ (10 : ℚ) < 11 - 0 ∧
      connectLoop 10 0 [(none, 11)] = (.timedOut, 1)) ∧
    (¬((0 : ℚ) < 10 ∧ (10 : ℚ) < 4 - 0) ∧
      connectLoop 10 0 [(none, 4)] =
        ((connectLoop 10 0 ([] : List (Option Nat × ℚ))).1,
         (connectLoop 10 0 ([] : List (Option Nat × ℚ))).2 + 1)) ∧
    ((0 : ℚ) ≤ 0 ∧ (connectLoop 0 0 [(none, 99), (none, 100)]).1 ≠ .timedOut) :=
  ⟨⟨by norm_num, connect_sync_loop.1 10 0 5 3 [] (by norm_num)⟩,
   connect_sync_loop.2.1 10 0 3 [],
   ⟨by norm_num, by norm_num, connect_sync_loop.2.2.1 10 0 11 [] (by norm_num) (by norm_num)⟩,
   ⟨by norm_num, connect_sync_loop.2.2.2.1 10 0 4 [] (by norm_num)⟩,
   ⟨le_refl 0, connect_sync_loop.2.2.2.2 0 0 [(none, 99), (none, 100)] (le_refl 0)⟩⟩

/-! ## C9: key registry lookup -/

theorem fields_lookup_none {k : Int} (hk : k < 1 ∨ 19 < k) :
    fields.lookup k = none := by
  have hb : ∀ n : Int, 1 ≤ n → n ≤ 19 → (k == n) = false := by
    intro n hn1 hn2
    simp only [beq_eq_false_iff_ne, ne_eq]
    omega
  simp only [fields, List.lookup_cons,
    hb 1 (by norm_num) (by norm_num), hb 2 (by norm_num) (by norm_num),
    hb 3 (by norm_num) (by norm_num), hb 4 (by norm_num) (by norm_num),
    hb 5 (by norm_num) (by norm_num), hb 6 (by norm_num) (by norm_num),
    hb 7 (by norm_num) (by norm_num), hb 8 (by norm_num) (by norm_num),
    hb 9 (by norm_num) (by norm_num), hb 10 (by norm_num) (by norm_num),
    hb 11 (by norm_num) (by norm_num), hb 12 (by norm_num) (by norm_num),
    hb 13 (by norm_num) (by norm_num), hb 14 (by norm_num) (by norm_num),
    hb 15 (by norm_num) (by norm_num), hb 16 (by norm_num) (by norm_num),
    hb 17 (by norm_num) (by norm_num), hb 18 (by norm_num) (by norm_num),
    hb 19 (by norm_num) (by norm_num)]
  rfl

/-- C9: `describe` is a pure lookup in the static key registry — for known
keys 1..19 it yields the registry label and for every other integer key the
label "Unknown" — but, due to the trailing comma in
`return self.fields.get(key, ('Unknown',))[0],`, it returns the 1-tuple
containing that label (modelled as a one-element list), not the bare label
string; in particular `describe(1)` is `('Device address',)`. -/
theorem describe_lookup :
    (∀ k : Int, 1 ≤ k → k ≤ 19 →
      ∃ label, fields.lookup k = some label ∧ describe k = [label]) ∧
    (∀ k : Int, k < 1 ∨ 19 < k → describe k = ["Unknown"]) ∧
    describe 1 = ["Device address"] ∧
    describe 0 = ["Unknown"] := by
  refine ⟨?_, ?_, rfl, rfl⟩
  · intro k h1 h2
    interval_cases k <;> exact ⟨_, rfl, rfl⟩
  · intro k hk
    simp [describe, fields_lookup_none hk]

/-- C9 witness. -/
theorem describe_lookup_witness :
    ((1 : Int) ≤ 7 ∧ (7 : Int) ≤ 19 ∧
      ∃ label, fields.lookup (7 : Int) = some label ∧ describe 7 = [label]) ∧
    (((20 : Int) < 1 ∨ (19 : Int) < 20) ∧ describe 20 = ["Unknown"]) :=
  ⟨⟨by norm_num, by norm_num, describe_lookup.1 7 (by norm_num) (by norm_num)⟩,
   ⟨Or.inr (by norm_num), describe_lookup.2.1 20 (Or.inr (by norm_num))⟩⟩

/-! ## C1: frame encoding layout -/

theorem packH_eq_of_lt {n : Nat} (h : n < 65536) : packH n = [n % 256, n / 256] := by
  have : n / 256 < 256 := by omega
  simp [packH, Nat.mod_eq_of_lt this]

/-- C1: for every command representable as an 8-bit signed integer and every
byte payload of length at most 65535, `build_packet` returns exactly the
start byte 0x71, the command's two's-complement byte, the length as 16-bit
little-endian, a 0x00 reserved byte, the payload, and the 16-bit
little-endian CRC-16/XMODEM checksum of command‖length‖reserved‖payload
(start byte and checksum field excluded from the checksum input). -/
theorem build_packet_layout (c : Int) (p : List Nat)
    (h1 : -128 ≤ c) (h2 : c ≤ 127) (h3 : p.length ≤ 65535)
    (h4 : ∀ b ∈ p, b < 256) :
    build_packet c p =
      0x71 :: (c % 256).toNat :: (p.length % 256) :: (p.length / 256) :: 0x00 ::
        (p ++
          [crc16xmodem ((c % 256).toNat :: (p.length % 256) :: (p.length / 256) :: 0x00 :: p) % 256,
           crc16xmodem ((c % 256).toNat :: (p.length % 256) :: (p.length / 256) :: 0x00 :: p) / 256]) := by
  rw [build_packet, pack_bHx, packH_eq_of_lt (show p.length < 65536 by omega)]
  rw [packH_eq_of_lt (crc16xmodem_lt _)]
  simp [byteOfSigned]

/-- C1 witness. -/
theorem build_packet_layout_witness :
    (-128 ≤ (-1 : Int) ∧ (-1 : Int) ≤ 127 ∧ ([171] : List Nat).length ≤ 65535 ∧
      (∀ b ∈ ([171] : List Nat), b < 256)) ∧
    build_packet (-1) [171] =
      0x71 :: ((-1 : Int) % 256).toNat :: (([171] : List Nat).length % 256) ::
        (([171] : List Nat).length / 256) :: 0x00 ::
        ([171] ++
          [crc16xmodem (((-1 : Int) % 256).toNat :: (([171] : List Nat).length % 256) ::
              (([171] : List Nat).length / 256) :: 0x00 :: [171]) % 256,
           crc16xmodem (((-1 : Int) % 256).toNat :: (([171] : List Nat).length % 256) ::
              (([171] : List Nat).length / 256) :: 0x00 :: [171]) / 256]) :=
  ⟨⟨by norm_num, by norm_num, by norm_num, by decide⟩,
    build_packet_layout (-1) [171] (by norm_num) (by norm_num) (by norm_num) (by decide)⟩

/-! ## C2: encode/decode round trip -/

/-- C2: a transport stream of the sync byte 0x01 followed by exactly
`build_packet cmd p` decodes without error: `read_packet` in
non-confirm-only mode recovers the command and payload length from the
header, its checksum verification succeeds, it returns the original
payload, and it consumes the entire stream. -/
theorem read_packet_roundtrip (cmd : Int) (p : List Nat)
    (h1 : -128 ≤ cmd) (h2 : cmd ≤ 127) (h3 : p.length ≤ 65535) :
    read_packet false (1 :: build_packet cmd p) = (.ok (.dataResp cmd p), []) ∧
    unpack_bHx (((1 :: build_packet cmd p).drop 2).take 4) = some (cmd, p.length) := by
  have hd : p.length / 256 % 256 = p.length / 256 := Nat.mod_eq_of_lt (by omega)
  have hn : p.length % 256 + 256 * (p.length / 256) = p.length := by omega
  have hts := toSigned_byteOfSigned h1 h2
  have hstream : build_packet cmd p =
      0x71 :: byteOfSigned cmd :: p.length % 256 :: p.length / 256 :: 0 ::
        (p ++ packH (crc16xmodem
          (byteOfSigned cmd :: p.length % 256 :: p.length / 256 :: 0 :: p))) := by
    simp [build_packet, pack_bHx, packH, hd]
  rw [hstream]
  constructor
  · simp only [read_packet, unpack_bHx]
    norm_num
    rw [hts, hn, List.take_left, List.drop_left]
    have hcrceq : (0x71 : Nat) = 113 := rfl
    simp [packH, hts]
  · simp only [List.drop_succ_cons, List.drop_zero, List.take_succ_cons,
      List.take_zero, unpack_bHx]
    rw [hts, hn]

/-- C2 witness. -/
theorem read_packet_roundtrip_witness :
    (-128 ≤ (54 : Int) ∧ (54 : Int) ≤ 127 ∧ ([1, 2, 3] : List Nat).length ≤ 65535) ∧
    read_packet false (1 :: build_packet 54 [1, 2, 3]) =
      (.ok (.dataResp 54 [1, 2, 3]), []) :=
  ⟨⟨by norm_num, by norm_num, by norm_num⟩,
    (read_packet_roundtrip 54 [1, 2, 3] (by norm_num) (by norm_num) (by norm_num)).1⟩

/-! ## C5: device failure codes -/

/-- C5 counterexample: a ByteResult failure (byte 0x04 after the 0x01 sync)
is returned to the caller as the normal value `ord('\x04') = 4`; no
exception is raised, contradicting the claim that every device failure code
surfaces as an error. -/
theorem read_packet_failure_byte_returned :
    (read_packet false [1, 4]).1 = .ok (.byteResult 4) := rfl

/-- C5 (amended): a failure sync byte 0x02 raises an exception immediately,
while a failure result byte 0x04 after the 0x01 sync is returned to the
caller as the normal value 4 (`ord(startbyte)`), not raised; in both cases
the remainder of the stream is untouched (no retry). -/
theorem read_packet_failure_codes :
    (∀ rest : List Nat, read_packet false (2 :: rest) = (.error (.badSync [2]), rest)) ∧
    (∀ rest : List Nat, read_packet true (2 :: rest) = (.error (.badSync [2]), rest)) ∧
    (∀ rest : List Nat, read_packet false (1 :: 4 :: rest) = (.ok (.byteResult 4), rest)) ∧
    (∀ rest : List Nat, read_packet false (1 :: 3 :: rest) = (.ok (.byteResult 3), rest)) := by
  refine ⟨?_, ?_, ?_, ?_⟩ <;> intro rest <;> simp [read_packet]

/-- C5 witness. -/
theorem read_packet_failure_codes_witness :
    read_packet false [2, 9] = (.error (.badSync [2]), [9]) ∧
    read_packet false [1, 4, 9] = (.ok (.byteResult 4), [9]) :=
  ⟨read_packet_failure_codes.1 [9], read_packet_failure_codes.2.2.1 [9]⟩

/-! ## C6: short reads after the sync byte -/

/-- C6 counterexample: in `nvdstool.py`, when the sync byte 0x01 arrives but
the following 5-byte header read returns zero bytes, `read_packet` silently
returns `None` — it does not raise — contradicting the claim. -/
theorem nv_read_packet_silent_none :
    (nv_read_packet [1]).1 = .ok none := rfl

/-- C6 (amended): when the sync byte 0x01 arrives and the next read returns
zero bytes, `qntool.py`'s `read_packet` raises ("No start byte received!"),
but `nvdstool.py`'s `read_packet` silently returns `None`; a header read
that returns some but fewer bytes than required raises a struct unpack
error in both. -/
theorem read_packet_short_header_reads :
    read_packet false [1] = (.error .noStartByte, []) ∧
    nv_read_packet [1] = (.ok none, []) ∧
    (∀ b : Nat, nv_read_packet [1, b] = (.error .unpackErr, [])) := by
  refine ⟨rfl, rfl, ?_⟩
  intro b
  simp [nv_read_packet, unpack_cbHx]

/-- C6 witness. -/
theorem read_packet_short_header_reads_witness :
    nv_read_packet [1, 113] = (.error .unpackErr, []) :=
  read_packet_short_header_reads.2.2 113

/-! ## C10: bytes consumed before the unexpected-start-byte error -/

/-- C10 counterexample: for the stream `[0x01, 0x00]` (first byte 0x01,
second byte none of 0x03/0x04/0x71) the header read returns no bytes, so
`read_packet` raises a struct unpack error — not the unexpected-start-byte
error — having consumed 2 bytes, not 6. -/
theorem read_packet_short_stream_consumed :
    read_packet false [1, 0] = (.error .unpackErr, []) ∧
    [1, 0].length - ((read_packet false [1, 0]).2).length = 2 := ⟨rfl, rfl⟩

/-- C10 (amended): for every stream whose first byte is 0x01, whose second
byte is none of 0x03, 0x04 or 0x71, and which holds at least 4 further
bytes, `read_packet` in non-confirm-only mode reads and unpacks the 4-byte
frame header before raising the unexpected-start-byte error, consuming
exactly 6 bytes in total; when fewer than 4 header bytes are available the
header unpack raises instead, with only the available bytes consumed. -/
theorem read_packet_consumes_header (b : Nat) (rest : List Nat)
    (h3 : b ≠ 3) (h4 : b ≠ 4) (h71 : b ≠ 0x71) (hlen : 4 ≤ rest.length) :
    read_packet false (1 :: b :: rest) = (.error (.badStartByte b), rest.drop 4) ∧
    (1 :: b :: rest).length - (rest.drop 4).length = 6 := by
  match rest, hlen with
  | r0 :: r1 :: r2 :: r3 :: t, _ =>
    constructor
    · simp [read_packet, unpack_bHx, h3, h4, h71]
    · simp
      omega

/-- C10 witness. -/
theorem read_packet_consumes_header_witness :
    ((5 : Nat) ≠ 3 ∧ (5 : Nat) ≠ 4 ∧ (5 : Nat) ≠ 0x71 ∧
      4 ≤ ([9, 9, 9, 9, 9] : List Nat).length) ∧
    read_packet false (1 :: 5 :: [9, 9, 9, 9, 9]) =
      (.error (.badStartByte 5), ([9, 9, 9, 9, 9] : List Nat).drop 4) ∧
    (1 :: 5 :: [9, 9, 9, 9, 9] : List Nat).length -
      (([9, 9, 9, 9, 9] : List Nat).drop 4).length = 6 :=
  ⟨⟨by norm_num, by norm_num, by norm_num, by norm_num⟩,
    read_packet_consumes_header 5 [9, 9, 9, 9, 9]
      (by norm_num) (by norm_num) (by norm_num) (by norm_num)⟩

/-! ## C3/C4: NVDS codec -/

theorem insertAL_of_not_mem {l : List (Nat × List Nat)} {k : Nat} {v : List Nat}
    (h : k ∉ l.map Prod.fst) : insertAL l k v = l ++ [(k, v)] := by
  induction l with
  | nil => rfl
  | cons kv t ih =>
    obtain ⟨k1, v1⟩ := kv
    simp only [List.map_cons, List.mem_cons] at h
    push_neg at h
    rw [insertAL, if_neg (fun he => h.1 he.symm), ih h.2]
    rfl

theorem dumpEntry_length {kv : Nat × List Nat} (hmod : kv.2.length % 4 = 0) :
    (dumpEntry kv).length = 4 + kv.2.length := by
  simp [dumpEntry, packH, hmod]
  omega

theorem encodeEntries_length {m : List (Nat × List Nat)}
    (hmod : ∀ kv ∈ m, kv.2.length % 4 = 0) :
    (encodeEntries m).length = 4 * m.length + (m.map (fun kv => kv.2.length)).sum := by
  induction m with
  | nil => simp [encodeEntries]
  | cons kv t ih =>
    simp only [encodeEntries, List.length_append,
      dumpEntry_length (hmod kv (List.mem_cons_self kv t)),
      ih (fun x hx => hmod x (List.mem_cons_of_mem kv hx)),
      List.map_cons, List.sum_cons, List.length_cons]
    ring

theorem parseEntriesF_encode (m : List (Nat × List Nat)) :
    ∀ (fuel k : Nat) (acc : List (Nat × List Nat)),
      (∀ kv ∈ m, kv.1 < 255) →
      (∀ kv ∈ m, kv.2.length % 4 = 0) →
      (∀ kv ∈ m, kv.2.length ≤ 65535) →
      (m.map Prod.fst).Nodup →
      (∀ kv ∈ m, kv.1 ∉ acc.map Prod.fst) →
      4 ≤ k →
      (encodeEntries m).length + k ≤ fuel →
      parseEntriesF fuel (encodeEntries m ++ List.replicate k 255) acc = .ok (acc ++ m) := by
  induction m with
  | nil =>
    intro fuel k acc _ _ _ _ _ hk hfuel
    cases fuel with
    | zero => omega
    | succ f =>
      have htake : (encodeEntries [] ++ List.replicate k 255).take 4 =
          [255, 255, 255, 255] := by
        simp only [encodeEntries, List.nil_append, List.take_replicate]
        rw [show 4 ⊓ k = 4 from by omega]
        rfl
      rw [parseEntriesF, htake]
      simp [unpack_BBH]
  | cons kv t ih =>
    intro fuel k acc h255 hmod hsize hnodup hacc hk hfuel
    obtain ⟨key, v⟩ := kv
    have hm : v.length % 4 = 0 := hmod (key, v) (List.mem_cons_self _ t)
    have hs : v.length ≤ 65535 := hsize (key, v) (List.mem_cons_self _ t)
    have hdvd : v.length / 256 % 256 = v.length / 256 := Nat.mod_eq_of_lt (by omega)
    have hkey : key < 255 := h255 (key, v) (List.mem_cons_self _ t)
    have hde : dumpEntry (key, v) =
        key :: 6 :: v.length % 256 :: v.length / 256 :: v := by
      simp [dumpEntry, packH, hm, hdvd]
    have hlde : (encodeEntries ((key, v) :: t)).length =
        4 + v.length + (encodeEntries t).length := by
      rw [encodeEntries, List.length_append, dumpEntry_length hm]
    cases fuel with
    | zero => omega
    | succ f =>
      have hdata : encodeEntries ((key, v) :: t) ++ List.replicate k 255 =
          key :: 6 :: v.length % 256 :: v.length / 256 ::
            (v ++ (encodeEntries t ++ List.replicate k 255)) := by
        rw [encodeEntries, hde]
        simp [List.append_assoc]
      have htake : (key :: 6 :: v.length % 256 :: v.length / 256 ::
          (v ++ (encodeEntries t ++ List.replicate k 255))).take 4 =
          [key, 6, v.length % 256, v.length / 256] := rfl
      have hun : unpack_BBH [key, 6, v.length % 256, v.length / 256] =
          some (key, 6, v.length) := by
        simp only [unpack_BBH]
        have hvn : v.length % 256 + 256 * (v.length / 256) = v.length := by omega
        rw [hvn]
      have hsent : ¬(key = 255 ∧ 6 = 255) := by omega
      rw [hdata]
      simp only [parseEntriesF, htake, hun]
      rw [if_neg hsent, if_neg (by norm_num)]
      simp only [List.drop_succ_cons, List.drop_zero]
      rw [List.take_left, List.drop_left, if_neg (by omega)]
      rw [insertAL_of_not_mem (hacc (key, v) (List.mem_cons_self _ t))]
      have hnodup' : key ∉ t.map Prod.fst ∧ (t.map Prod.fst).Nodup := by
        rw [List.map_cons, List.nodup_cons] at hnodup
        exact hnodup
      rw [ih f k (acc ++ [(key, v)])
        (fun x hx => h255 x (List.mem_cons_of_mem _ hx))
        (fun x hx => hmod x (List.mem_cons_of_mem _ hx))
        (fun x hx => hsize x (List.mem_cons_of_mem _ hx))
        hnodup'.2
        (by
          intro x hx
          simp only [List.map_append, List.mem_append, List.map_cons,
            List.map_nil, List.mem_singleton, not_or]
          refine ⟨fun hc => hacc x (List.mem_cons_of_mem _ hx) hc, ?_⟩
          intro hc
          exact hnodup'.1 (hc ▸ List.mem_map_of_mem Prod.fst hx))
        hk
        (by rw [hlde] at hfuel; omega)]
      simp

/-- C3: serializing a mapping of at most 19 distinct sub-0xFF keys whose
value sizes are multiples of 4 and total at most 4000 bytes, then parsing
the block, returns exactly the original mapping. -/
theorem nvds_roundtrip (m : List (Nat × List Nat))
    (hnodup : (m.map Prod.fst).Nodup)
    (h255 : ∀ kv ∈ m, kv.1 < 255)
    (hmod : ∀ kv ∈ m, kv.2.length % 4 = 0)
    (hcount : m.length ≤ 19)
    (htotal : (m.map (fun kv => kv.2.length)).sum ≤ 4000) :
    loads (dumps m) = .ok m := by
  have hsize : ∀ kv ∈ m, kv.2.length ≤ 65535 := by
    intro kv hkv
    have hmem : kv.2.length ∈ m.map (fun kv => kv.2.length) :=
      List.mem_map_of_mem _ hkv
    have := List.single_le_sum (fun x _ => Nat.zero_le x) _ hmem
    omega
  have hlenc : (encodeEntries m).length = 4 * m.length +
      (m.map (fun kv => kv.2.length)).sum := encodeEntries_length hmod
  have hL : (encodeEntries m).length ≤ 4076 := by omega
  have hcl : (dumpsContent m).length = 4 + (encodeEntries m).length := by
    rw [dumpsContent, List.length_append]
    rfl
  have hd : dumps m = nvdsSig ++ (encodeEntries m ++
      List.replicate (4096 - (dumpsContent m).length) 255) := by
    rw [dumps, dumpsContent, List.append_assoc]
  rw [loads, hd]
  rw [show (4 : Nat) = nvdsSig.length from rfl, List.take_left, List.drop_left]
  rw [if_pos rfl]
  rw [List.length_append, List.length_replicate]
  rw [parseEntriesF_encode m _ _ [] h255 hmod hsize hnodup (by simp)
    (by omega) (le_refl _)]
  simp

/-- C3 witness. -/
theorem nvds_roundtrip_witness :
    ((([(1, [10, 20, 30, 40])] : List (Nat × List Nat)).map Prod.fst).Nodup ∧
      (∀ kv ∈ ([(1, [10, 20, 30, 40])] : List (Nat × List Nat)), kv.1 < 255) ∧
      (∀ kv ∈ ([(1, [10, 20, 30, 40])] : List (Nat × List Nat)), kv.2.length % 4 = 0) ∧
      ([(1, [10, 20, 30, 40])] : List (Nat × List Nat)).length ≤ 19 ∧
      (([(1, [10, 20, 30, 40])] : List (Nat × List Nat)).map
        (fun kv => kv.2.length)).sum ≤ 4000) ∧
    loads (dumps [(1, [10, 20, 30, 40])]) = .ok [(1, [10, 20, 30, 40])] :=
  ⟨⟨by decide, by decide, by decide, by decide, by decide⟩,
    nvds_roundtrip [(1, [10, 20, 30, 40])] (by decide) (by decide) (by decide)
      (by decide) (by decide)⟩

/-- C4 counterexample: for a mapping whose serialized content exceeds 4096
bytes (one key with a 5000-byte value), `dumps` does not fail — it returns
the oversized 5008-byte block unchanged. -/
theorem dumps_overlong_returned :
    4096 < (dumps [(1, List.replicate 5000 0)]).length ∧
    (dumps [(1, List.replicate 5000 0)]).length = 5008 := by
  have hm : ((1, List.replicate 5000 (0 : Nat)) : Nat × List Nat).2.length % 4 = 0 := by
    rw [List.length_replicate]
  have hc : (dumpsContent [(1, List.replicate 5000 0)]).length = 5008 := by
    rw [dumpsContent, List.length_append]
    simp only [encodeEntries, List.length_append, dumpEntry_length hm,
      List.length_nil, List.length_replicate]
    rfl
  have hd : (dumps [(1, List.replicate 5000 0)]).length = 5008 := by
    rw [dumps, List.length_append, List.length_replicate, hc]
  exact ⟨by omega, hd⟩

/-- C4 (amended): `dumps` pads the serialized content with 0xFF bytes to a
total of exactly 4096 when the content fits; when the content exceeds 4096
bytes it returns the oversized content unchanged, without error and without
truncation, rather than failing. -/
theorem dumps_padding (m : List (Nat × List Nat)) :
    ((dumpsContent m).length ≤ 4096 →
      dumps m = dumpsContent m ++ List.replicate (4096 - (dumpsContent m).length) 255 ∧
      (dumps m).length = 4096) ∧
    (4096 < (dumpsContent m).length → dumps m = dumpsContent m) := by
  constructor
  · intro h
    refine ⟨rfl, ?_⟩
    rw [dumps, List.length_append, List.length_replicate]
    omega
  · intro h
    rw [dumps, show 4096 - (dumpsContent m).length = 0 from by omega]
    simp

/-- C4 witness. -/
theorem dumps_padding_witness :
    (dumpsContent []).length ≤ 4096 ∧ (dumps []).length = 4096 :=
  ⟨by decide, ((dumps_padding []).1 (by decide)).2⟩
